import Mathlib

/-!
# Verification of the Control D sync tool (`main.py`)

Shallow embedding of the single-file Python program that synchronises
Control D rule folders with remote block-list definitions.  Remote HTTP
interactions are modelled by explicit oracles: an `Env` carries, for each
kind of request the program issues, the list of outcomes the remote
service would return, consumed in call order.  Every function mirrors the
Python function of the same name; traces of issued requests are made
explicit as lists of `Op`.
-/

namespace CtrldSync

/-- Constants from `main.py` section 1. -/
def BATCH_SIZE : Nat := 500

def MAX_RETRIES : Nat := 3

def RETRY_DELAY : Nat := 1

/- ----------------------------------------------------------------- -/
/- JSON data model: the shapes the program reads.  `Option` marks a
   field that may be absent from the document (a `KeyError` in Python
   when accessed with `[...]`). -/

/-- One entry of a definition document's `rules` array: `{"PK": hostname}`.
`none` models an entry lacking the `PK` field. -/
structure RuleEntry where
  PK : Option String
deriving DecidableEq, Repr

/-- The `action` object of a definition document: `{"do": _, "status": _}`.
(`do` is a Lean keyword, hence `do_`.) -/
structure ActionObj where
  do_ : Option Int
  status : Option Int
deriving DecidableEq, Repr

/-- The `group` object of a definition document. -/
structure GroupObj where
  group : Option String
  action : Option ActionObj
deriving DecidableEq, Repr

/-- A whole definition document as fetched from GitHub. -/
structure FolderDoc where
  group : Option GroupObj
  rules : List RuleEntry
deriving DecidableEq, Repr

/-- One entry of the service's `GET /groups` response:
`{group: name, PK: id}`, either field possibly absent. -/
structure GroupEntry where
  group : Option String
  PK : Option String
deriving DecidableEq, Repr

/-- Outcome of one `create_folder` interaction: whether the
`POST /groups` call succeeded (after retries), and the subsequent
re-listing response (`none` = HTTP error, or missing `body`/`groups`). -/
structure CreateResp where
  postOk : Bool
  relist : Option (List GroupEntry)
deriving DecidableEq, Repr

/-- Observable remote requests issued by the program (model trace). -/
inductive Op where
  | fetchDef (i : Nat)
  | listFolders
  | deleteFolder (name id : String)
  | createFolder (name : String)
  | postRules (gid : String) (do_ status : Int) (hostnames : List String)
  | deleteRule (host : String)
deriving DecidableEq, Repr

/-- Oracle environment: outcomes the remote service returns, consumed in
call order.  `posts`: responses to `POST /rules` (`none` = 2xx,
`some t` = HTTP error whose response body is `t`); `dels`: success of
`DELETE /rules/{host}`; `delFolderResps`: success of
`DELETE /groups/{id}`; `creates`: one `CreateResp` per `create_folder`
call; `listResp`: the initial `GET /groups` (`none` = HTTP error after
retries).  An exhausted list defaults to a successful outcome. -/
structure Env where
  listResp : Option (List GroupEntry)
  delFolderResps : List Bool
  creates : List CreateResp
  posts : List (Option String)
  dels : List Bool
deriving DecidableEq, Repr

/-- Pop the next `POST /rules` outcome. -/
def popPost (e : Env) : Option String × Env :=
  match e.posts with
  | [] => (none, e)
  | p :: ps => (p, { e with posts := ps })

/-- Pop the next `DELETE /rules` outcome. -/
def popDel (e : Env) : Bool × Env :=
  match e.dels with
  | [] => (true, e)
  | d :: ds => (d, { e with dels := ds })

/-- Pop the next `DELETE /groups` outcome. -/
def popDelFolder (e : Env) : Bool × Env :=
  match e.delFolderResps with
  | [] => (true, e)
  | d :: ds => (d, { e with delFolderResps := ds })

/-- Pop the next `create_folder` interaction outcome. -/
def popCreate (e : Env) : CreateResp × Env :=
  match e.creates with
  | [] => (⟨true, some []⟩, e)
  | c :: cs => (c, { e with creates := cs })

/- ----------------------------------------------------------------- -/
/- String helpers mirroring Python substring / regex operations. -/

/-- Python `str.strip()`: remove leading and trailing whitespace. -/
def pyStrip (s : String) : String :=
  String.mk (((s.data.dropWhile Char.isWhitespace).reverse.dropWhile Char.isWhitespace).reverse)

/-- Worker for `splitComma`, accumulating the current field reversed. -/
def splitCommaAux : List Char → List Char → List String
  | [], cur => [String.mk cur.reverse]
  | c :: rest, cur =>
    if c = ',' then String.mk cur.reverse :: splitCommaAux rest []
    else splitCommaAux rest (c :: cur)

/-- Python `str.split(",")` (note `"".split(",") == [""]`). -/
def splitComma (s : String) : List String := splitCommaAux s.data []

/-- `pat` occurs as a contiguous run inside `l` (Python `pat in s`). -/
def listContains (l pat : List Char) : Bool :=
  match l with
  | [] => pat.isEmpty
  | _ :: tl => pat.isPrefixOf l || listContains tl pat

/-- `push_rules` classifies an HTTP error as a duplicate-rule conflict iff
its response text contains `"already exists"` or `"40003"`
(`main.py` line 274). -/
def isDup (t : String) : Bool :=
  listContains t.data "already exists".data || listContains t.data "40003".data

/-- The literal part of the regex
`"Custom Rule already exists: (.+)"` in `handle_duplicate_error`. -/
def dupMarker : List Char := "Custom Rule already exists: ".data

/-- Leftmost-match search for the regex `Custom Rule already exists: (.+)`:
find the first position where the marker occurs followed by at least one
non-newline character, and return that (greedy, up to end of line)
capture. -/
def findAfterMarker : List Char → Option (List Char)
  | [] => none
  | c :: cs =>
    if dupMarker.isPrefixOf (c :: cs) then
      let rest := ((c :: cs).drop dupMarker.length).takeWhile (fun ch => ch ≠ '\n')
      if rest.isEmpty then findAfterMarker cs else some rest
    else findAfterMarker cs

/-- `handle_duplicate_error`'s hostname extraction: regex search followed
by `.strip()` of the capture. -/
def extractDupHostname (errorText : String) : Option String :=
  (findAfterMarker errorText.data).map (fun cs => pyStrip (String.mk cs))

/- ----------------------------------------------------------------- -/
/- `_retry_request` and `_gh_get`. -/

/-- `_retry_request`, modelled over an oracle `req` giving the outcome of
each attempt (numbered from 0).  `remaining` counts the attempts left
after the current one; returns the final outcome and the list of logged
back-off waits (`delay * 2 ^ attempt` per non-final failure). -/
def retryGo {ε ρ : Type} (req : Nat → Except ε ρ) (delay : Nat) :
    Nat → Nat → Except ε ρ × List Nat
  | attempt, remaining =>
    match req attempt with
    | .ok r => (.ok r, [])
    | .error e =>
      match remaining with
      | 0 => (.error e, [])
      | r + 1 =>
        let rec_ := retryGo req delay (attempt + 1) r
        (rec_.1, delay * 2 ^ attempt :: rec_.2)

/-- `_retry_request(request_func)` with the program's constants:
up to `MAX_RETRIES = 3` attempts, back-off starting at `RETRY_DELAY = 1`. -/
def retryRequest {ε ρ : Type} (req : Nat → Except ε ρ) : Except ε ρ × List Nat :=
  retryGo req RETRY_DELAY 0 (MAX_RETRIES - 1)

/-- `_gh_get`: definition documents are fetched through the plain GitHub
client with a process-local cache and *no* retry wrapper — only attempt 0
of the oracle is ever consulted. -/
def ghGet {ε ρ : Type} (cache : List (String × ρ)) (url : String)
    (req : Nat → Except ε ρ) : Except ε ρ × List (String × ρ) :=
  match cache.find? (fun p => p.1 == url) with
  | some p => (.ok p.2, cache)
  | none =>
    match req 0 with
    | .ok j => (.ok j, cache ++ [(url, j)])
    | .error e => (.error e, cache)

/- ----------------------------------------------------------------- -/
/- Folder directory and lifecycle. -/

/-- The dict comprehension of `list_existing_folders`: keep entries with a
truthy `group` and truthy `PK`, key = trimmed name.  (Python dict
semantics: a later duplicate key overrides an earlier one — captured by
`dictLookup` below.) -/
def buildDict (gs : List GroupEntry) : List (String × String) :=
  gs.filterMap (fun g =>
    match g.group, g.PK with
    | some nm, some pk =>
      if nm.isEmpty || pk.isEmpty then none else some (pyStrip nm, pk)
    | _, _ => none)

/-- `list_existing_folders`: on an HTTP error (or missing keys) the
function logs and returns the empty mapping. -/
def list_existing_folders (resp : Option (List GroupEntry)) : List (String × String) :=
  match resp with
  | none => []
  | some gs => buildDict gs

/-- Python dict lookup over the association list built by `buildDict`:
the *last* binding of a key wins. -/
def dictLookup (m : List (String × String)) (k : String) : Option String :=
  match m.reverse.find? (fun p => p.1 == k) with
  | some p => some p.2
  | none => none

/-- The scan in `create_folder` over the re-listed groups: the first entry
whose trimmed `group` equals the trimmed target name.  `.error ()` models
a `KeyError` (entry lacking `group`, or the matched entry lacking `PK`),
which `create_folder` catches; `.ok none` means no entry matched. -/
def findCreated : List GroupEntry → String → Except Unit (Option String)
  | [], _ => .ok none
  | e :: rest, name =>
    match e.group with
    | none => .error ()
    | some gname =>
      if pyStrip gname = pyStrip name then
        match e.PK with
        | none => .error ()
        | some pk => .ok (some pk)
      else findCreated rest name

/-- `create_folder`: POST the new group, then re-list all groups and scan
for the trimmed-name match to recover the new id; any HTTP error or
`KeyError` yields `none`.  The second component is the trace of requests
issued. -/
def create_folder (resp : CreateResp) (name : String) : Option String × List Op :=
  if resp.postOk then
    match resp.relist with
    | none => (none, [.createFolder name, .listFolders])
    | some entries =>
      match findCreated entries name with
      | .error _ => (none, [.createFolder name, .listFolders])
      | .ok r => (r, [.createFolder name, .listFolders])
  else (none, [.createFolder name])

/- ----------------------------------------------------------------- -/
/- Rule batch pushing. -/

/-- Worker for `chunksOf`, structurally recursive on a fuel that starts
at the list length (each step removes at least one element for `n ≥ 1`,
so the fuel never runs out; the `0, _ :: _` arm is unreachable). -/
def chunksOfAux (n : Nat) : Nat → List String → List (List String)
  | _, [] => []
  | fuel + 1, a :: l => (a :: l).take n :: chunksOfAux n fuel (l.drop (n - 1))
  | 0, l => [l]

/-- Python slicing loop `hostnames[start : start+BATCH_SIZE]` for
`start in range(0, len, BATCH_SIZE)`: contiguous chunks of at most `n`
elements (meaningful for `n ≥ 1`, the program uses `n = 500`). -/
def chunksOf (n : Nat) (l : List String) : List (List String) :=
  chunksOfAux n l.length l

/-- `handle_duplicate_error`: extract the conflicting hostname from the
error text; for block folders (`do = 1`) delete the existing rule and
(when the delete succeeds) hand the whole batch back for a retry; in
every other case return the empty list, which makes `push_rules` skip
the batch and count it as satisfied. -/
def handle_duplicate_error (env : Env) (batch : List String) (d : Int)
    (errorText : String) : List String × List Op × Env :=
  match extractDupHostname errorText with
  | none => ([], [], env)
  | some h =>
    if d = 1 then
      match popDel env with
      | (true, env1) => (batch, [.deleteRule h], env1)
      | (false, env1) => ([], [.deleteRule h], env1)
    else ([], [], env)

/-- The body of `push_rules`' loop for one batch: at most two attempts
(the original plus one retry after duplicate handling).  Returns whether
the batch was counted towards `successful_batches`, the requests issued,
and the remaining oracle. -/
def processBatch (env : Env) (d s : Int) (g : String) (b : List String) :
    Bool × List Op × Env :=
  match popPost env with
  | (none, env1) => (true, [.postRules g d s b], env1)
  | (some t1, env1) =>
    if isDup t1 then
      match handle_duplicate_error env1 b d t1 with
      | ([], ht, env2) => (true, .postRules g d s b :: ht, env2)
      | (nb, ht, env2) =>
        match popPost env2 with
        | (none, env3) =>
          (true, .postRules g d s b :: ht ++ [.postRules g d s nb], env3)
        | (some t2, env3) =>
          (isDup t2, .postRules g d s b :: ht ++ [.postRules g d s nb], env3)
    else (false, [.postRules g d s b], env1)

/-- The outer loop of `push_rules` over all batches, counting
`successful_batches`. -/
def pushBatches (d s : Int) (g : String) : Env → List (List String) → Nat × List Op × Env
  | env, [] => (0, [], env)
  | env, b :: bs =>
    let r1 := processBatch env d s g b
    let r2 := pushBatches d s g r1.2.2 bs
    ((if r1.1 then 1 else 0) + r2.1, r1.2.1 ++ r2.2.1, r2.2.2)

/-- `push_rules`: empty hostname list returns success immediately;
otherwise push each `BATCH_SIZE`-chunk in order and succeed iff every
batch was counted. -/
def push_rules (env : Env) (d s : Int) (g : String) (hostnames : List String) :
    Bool × List Op × Env :=
  match hostnames with
  | [] => (true, [], env)
  | _ =>
    let chunks := chunksOf BATCH_SIZE hostnames
    match pushBatches d s g env chunks with
    | (n, t, env1) => (n == chunks.length, t, env1)

/- ----------------------------------------------------------------- -/
/- Sync workflow (`sync_profile`). -/

/-- The hostname extraction in `sync_profile`:
`[r["PK"] for r in folder_data.get("rules", []) if r.get("PK")]` —
keep entries whose `PK` is present and truthy (a non-empty string). -/
def extractHostnames : List RuleEntry → List String
  | [] => []
  | r :: rs =>
    match r.PK with
    | some s => if s.isEmpty then extractHostnames rs else s :: extractHostnames rs
    | none => extractHostnames rs

/-- The per-URL fetch filter of `sync_profile`: URLs whose fetch raised
are logged and skipped. -/
def okDoc : Except Unit FolderDoc → Option FolderDoc
  | .ok d => some d
  | .error _ => none

/-- `folder_data_list`: the successfully fetched documents, in URL order. -/
def fetchedDocs (fetches : List (Except Unit FolderDoc)) : List FolderDoc :=
  fetches.filterMap okDoc

/-- The delete-stale loop of `sync_profile`: for each document, read the
target name (`folder_data["group"]["group"].strip()` — a missing field
raises a `KeyError`, modelled by the `false` flag, which aborts the whole
pass) and delete any existing folder with that exact trimmed name.  The
delete outcome is ignored by the caller. -/
def deletePhase (env : Env) (existing : List (String × String)) :
    List FolderDoc → Bool × List Op × Env
  | [] => (true, [], env)
  | doc :: rest =>
    match doc.group with
    | none => (false, [], env)
    | some grp =>
      match grp.group with
      | none => (false, [], env)
      | some rawName =>
        let name := pyStrip rawName
        match dictLookup existing name with
        | none => deletePhase env existing rest
        | some fid =>
          let env1 := (popDelFolder env).2
          let r := deletePhase env1 existing rest
          (r.1, Op.deleteFolder name fid :: r.2.1, r.2.2)

/-- One iteration of the create-and-push loop of `sync_profile` for one
document: extract name/do/status (`none` result = `KeyError`, aborting
the pass), create the folder, and — when an id was resolved and is
truthy — push the rules.  Returns whether the folder counted towards
`success_count`. -/
def processDef (env : Env) (doc : FolderDoc) : Option (Bool × List Op × Env) :=
  match doc.group with
  | none => none
  | some grp =>
    match grp.group with
    | none => none
    | some rawName =>
      match grp.action with
      | none => none
      | some act =>
        match act.do_ with
        | none => none
        | some d =>
          match act.status with
          | none => none
          | some s =>
            let name := pyStrip rawName
            let hostnames := extractHostnames doc.rules
            let pc := popCreate env
            let cf := create_folder pc.1 name
            match cf.1 with
            | none => some (false, cf.2, pc.2)
            | some fid =>
              if fid.isEmpty then some (false, cf.2, pc.2)
              else
                let pr := push_rules pc.2 d s fid hostnames
                some (pr.1, cf.2 ++ pr.2.1, pr.2.2)

/-- The create-and-push loop of `sync_profile` over all fetched
documents, counting `success_count`; `none` models a `KeyError` escaping
to the top-level handler. -/
def createPhase : Env → List FolderDoc → Option Nat × List Op × Env
  | env, [] => (some 0, [], env)
  | env, doc :: rest =>
    match processDef env doc with
    | none => (none, [], env)
    | some (ok, t, env1) =>
      let r := createPhase env1 rest
      match r.1 with
      | none => (none, t ++ r.2.1, r.2.2)
      | some n => (some ((if ok then 1 else 0) + n), t ++ r.2.1, r.2.2)

/-- `sync_profile`: fetch every definition (failed URLs are skipped), fail
if none survive, list existing folders, delete every stale folder whose
trimmed name matches a target, then create each folder and push its
rules.  The pass succeeds iff every fetched definition was created and
fully pushed; an uncaught exception (a `KeyError` from a document missing
a required field) makes the pass fail.  `fetches` gives the outcome of
the GET for each configured definition URL, in order. -/
def sync_profile (fetches : List (Except Unit FolderDoc)) (env : Env) :
    Bool × List Op :=
  let docs := fetchedDocs fetches
  let ft := (List.range fetches.length).map Op.fetchDef
  if docs.isEmpty then (false, ft)
  else
    let existing := list_existing_folders env.listResp
    let dp := deletePhase env existing docs
    if dp.1 then
      let cp := createPhase dp.2.2 docs
      match cp.1 with
      | none => (false, ft ++ Op.listFolders :: (dp.2.1 ++ cp.2.1))
      | some n => (n == docs.length, ft ++ Op.listFolders :: (dp.2.1 ++ cp.2.1))
    else (false, ft ++ Op.listFolders :: dp.2.1)

/- ----------------------------------------------------------------- -/
/- Entry point (`main`). -/

/-- `PROFILE_IDS`: split the `PROFILE` environment variable (default
`""`) on commas, strip each part, keep the truthy (non-empty) ones. -/
def getProfileIds (profileVar : Option String) : List String :=
  ((splitComma (profileVar.getD "")).map pyStrip).filter (fun s => !s.isEmpty)

/-- Truthiness of the `TOKEN` environment variable: present and
non-empty. -/
def tokenPresent (token : Option String) : Bool :=
  match token with
  | none => false
  | some t => !t.isEmpty

/-- `main`: exit `1` before any network request when the token or the
profile list is missing; otherwise sync every profile and exit `0` iff
every pass succeeded.  Returns the exit status and the combined request
trace. -/
def mainRun (token : Option String) (profileVar : Option String)
    (fetchesOf : String → List (Except Unit FolderDoc)) (envOf : String → Env) :
    Nat × List Op :=
  if !(tokenPresent token) || (getProfileIds profileVar).isEmpty then (1, [])
  else
    let results := (getProfileIds profileVar).map
      (fun p => sync_profile (fetchesOf p) (envOf p))
    (if results.all (fun r => r.1) then 0 else 1, (results.map (fun r => r.2)).flatten)

/- ----------------------------------------------------------------- -/
/- Concrete inputs used by closed theorems. -/

/-- Recognise the folder-deletion requests in a trace. -/
def Op.isDeleteFolderOp : Op → Bool
  | .deleteFolder _ _ => true
  | _ => false

/-- Recognise the folder-creation requests in a trace. -/
def Op.isCreateFolderOp : Op → Bool
  | .createFolder _ => true
  | _ => false

/-- Number of `POST /rules` requests in a trace. -/
def countPosts (l : List Op) : Nat :=
  (l.filter (fun op =>
    match op with
    | .postRules _ _ _ _ => true
    | _ => false)).length

/-- A well-formed definition document named `good`, with one rule. -/
def goodDoc : FolderDoc :=
  ⟨some ⟨some "good", some ⟨some 1, some 1⟩⟩, [⟨some "a.com"⟩]⟩

/-- A definition document missing the required `group.group` field. -/
def badDoc : FolderDoc := ⟨some ⟨none, none⟩, []⟩

/-- An environment in which `goodDoc` syncs cleanly: no pre-existing
folders, a successful creation resolved to id `pk`, all pushes succeed. -/
def env9 : Env := ⟨some [], [], [⟨true, some [⟨some "good", some "pk"⟩]⟩], [], []⟩

/- ----------------------------------------------------------------- -/
/- Helper lemmas. -/

theorem handle_dup_shape (env : Env) (b : List String) (d : Int) (t : String) :
    (handle_duplicate_error env b d t).2.1 = []
    ∨ ∃ h, (handle_duplicate_error env b d t).2.1 = [.deleteRule h] := by
  unfold handle_duplicate_error
  rcases he : extractDupHostname t with _ | h
  · left; rfl
  · by_cases h1 : d = 1
    · rcases hp : popDel env with ⟨ok, env1⟩
      cases ok <;> simp [h1, hp]
    · left; simp [h1]

theorem handle_dup_cases (env : Env) (b : List String) (d : Int) (t : String) :
    (handle_duplicate_error env b d t).1 = []
    ∨ ∃ h, handle_duplicate_error env b d t = (b, [.deleteRule h], (popDel env).2) := by
  unfold handle_duplicate_error
  rcases he : extractDupHostname t with _ | h
  · left; rfl
  · by_cases h1 : d = 1
    · rcases hp : popDel env with ⟨ok, env1⟩
      cases ok <;> simp [h1, hp]
    · left; simp [h1]

theorem processBatch_shape (env : Env) (d s : Int) (g : String) (b : List String) :
    (processBatch env d s g b).2.1 = [.postRules g d s b]
    ∨ (∃ h, (processBatch env d s g b).2.1 = [.postRules g d s b, .deleteRule h])
    ∨ (∃ h, (processBatch env d s g b).2.1
        = [.postRules g d s b, .deleteRule h, .postRules g d s b]) := by
  unfold processBatch
  rcases hp : popPost env with ⟨r1, env1⟩
  cases r1 with
  | none => left; rfl
  | some t1 =>
    by_cases hd : isDup t1
    · simp only [hd, if_true]
      rcases hh : handle_duplicate_error env1 b d t1 with ⟨nb, ht, env2⟩
      have hts := handle_dup_shape env1 b d t1
      have htb := handle_dup_cases env1 b d t1
      rw [hh] at hts htb
      simp only at hts htb
      cases nb with
      | nil =>
        rcases hts with h0 | ⟨h, h1⟩
        · left; simp [h0]
        · right; left; exact ⟨h, by simp [h1]⟩
      | cons x xs =>
        rcases htb with h0 | ⟨h, heq⟩
        · exact absurd h0 (by simp)
        · have hb : x :: xs = b := congrArg (fun p => p.1) heq
          have h1 : ht = [.deleteRule h] := congrArg (fun p => p.2.1) heq
          rcases hp2 : popPost env2 with ⟨r2, env3⟩
          cases r2 with
          | none => right; right; exact ⟨h, by simp [hp2, h1, hb]⟩
          | some t2 => right; right; exact ⟨h, by simp [hp2, h1, hb]⟩
    · simp only [hd, if_false]
      left; rfl

theorem processBatch_head (env : Env) (d s : Int) (g : String) (b : List String) :
    ∃ rest, (processBatch env d s g b).2.1 = .postRules g d s b :: rest := by
  rcases processBatch_shape env d s g b with h | ⟨x, h⟩ | ⟨x, h⟩ <;> exact ⟨_, h⟩

theorem processBatch_no_delF (env : Env) (d s : Int) (g : String) (b : List String) :
    ∀ op ∈ (processBatch env d s g b).2.1, op.isDeleteFolderOp = false := by
  rcases processBatch_shape env d s g b with h | ⟨x, h⟩ | ⟨x, h⟩ <;> rw [h] <;>
    intro op hop <;> simp at hop <;>
    first
      | (subst hop; rfl)
      | (rcases hop with rfl | rfl <;> rfl)
      | (rcases hop with rfl | rfl | rfl <;> rfl)

theorem processBatch_le_two_posts (env : Env) (d s : Int) (g : String) (b : List String) :
    countPosts (processBatch env d s g b).2.1 ≤ 2 := by
  rcases processBatch_shape env d s g b with h | ⟨x, h⟩ | ⟨x, h⟩ <;> rw [h] <;>
    simp [countPosts, List.filter]

theorem pushBatches_nil (d s : Int) (g : String) (env : Env) :
    pushBatches d s g env [] = (0, [], env) := by
  rw [pushBatches]

theorem pushBatches_cons (d s : Int) (g : String) (env : Env) (b : List String)
    (bs : List (List String)) :
    pushBatches d s g env (b :: bs)
      = ((if (processBatch env d s g b).1 then 1 else 0)
           + (pushBatches d s g (processBatch env d s g b).2.2 bs).1,
         (processBatch env d s g b).2.1
           ++ (pushBatches d s g (processBatch env d s g b).2.2 bs).2.1,
         (pushBatches d s g (processBatch env d s g b).2.2 bs).2.2) := by
  rw [pushBatches]

theorem pushBatches_count_le (d s : Int) (g : String) :
    ∀ (bs : List (List String)) (env : Env), (pushBatches d s g env bs).1 ≤ bs.length := by
  intro bs
  induction bs with
  | nil => intro env; rw [pushBatches_nil]; simp
  | cons b bs ih =>
    intro env
    rw [pushBatches_cons]
    have hle := ih (processBatch env d s g b).2.2
    simp only [List.length_cons]
    cases h : (processBatch env d s g b).1 <;> simp <;> omega

theorem pushBatches_mem_post (d s : Int) (g : String) :
    ∀ (bs : List (List String)) (env : Env) (b : List String), b ∈ bs →
      Op.postRules g d s b ∈ (pushBatches d s g env bs).2.1 := by
  intro bs
  induction bs with
  | nil => intro env b h; cases h
  | cons b0 bs ih =>
    intro env b hb
    rw [pushBatches_cons]
    simp only [List.mem_append]
    rcases List.mem_cons.mp hb with rfl | hb2
    · obtain ⟨rest, hr⟩ := processBatch_head env d s g b
      left; rw [hr]; exact List.mem_cons_self _ _
    · right; exact ih (processBatch env d s g b0).2.2 b hb2

theorem pushBatches_no_delF (d s : Int) (g : String) :
    ∀ (bs : List (List String)) (env : Env),
      ∀ op ∈ (pushBatches d s g env bs).2.1, op.isDeleteFolderOp = false := by
  intro bs
  induction bs with
  | nil => intro env op h; rw [pushBatches_nil] at h; cases h
  | cons b bs ih =>
    intro env op hop
    rw [pushBatches_cons] at hop
    rcases List.mem_append.mp hop with h1 | h2
    · exact processBatch_no_delF env d s g b op h1
    · exact ih (processBatch env d s g b).2.2 op h2

theorem pushBatches_allok (d s : Int) (g : String) (lr : Option (List GroupEntry))
    (dfr : List Bool) (crs : List CreateResp) :
    ∀ bs : List (List String), pushBatches d s g ⟨lr, dfr, crs, [], []⟩ bs
      = (bs.length, bs.map (fun c => Op.postRules g d s c), ⟨lr, dfr, crs, [], []⟩) := by
  intro bs
  induction bs with
  | nil => rw [pushBatches_nil]; rfl
  | cons b bs ih =>
    rw [pushBatches_cons]
    have hp : processBatch ⟨lr, dfr, crs, [], []⟩ d s g b
        = (true, [.postRules g d s b], ⟨lr, dfr, crs, [], []⟩) := rfl
    rw [hp, ih]
    simp [Nat.add_comm]

theorem chunksOfAux_fuelinv (n : Nat) :
    ∀ (f1 : Nat) (l : List String) (f2 : Nat), l.length ≤ f1 → l.length ≤ f2 →
      chunksOfAux n f1 l = chunksOfAux n f2 l := by
  intro f1
  induction f1 with
  | zero =>
    intro l f2 h1 h2
    have hl0 : l = [] := List.eq_nil_of_length_eq_zero (Nat.le_zero.mp h1)
    subst hl0
    cases f2 <;> rfl
  | succ f ih =>
    intro l f2 h1 h2
    cases l with
    | nil => cases f2 <;> rfl
    | cons a tl =>
      simp only [List.length_cons] at h1 h2
      cases f2 with
      | zero => omega
      | succ f2' =>
        show (a :: tl).take n :: chunksOfAux n f (tl.drop (n - 1))
            = (a :: tl).take n :: chunksOfAux n f2' (tl.drop (n - 1))
        rw [ih (tl.drop (n - 1)) f2'
          (by simp only [List.length_drop]; omega)
          (by simp only [List.length_drop]; omega)]

theorem chunksOf_nil (n : Nat) : chunksOf n [] = [] := rfl

theorem chunksOf_cons (n : Nat) (a : String) (l : List String) :
    chunksOf n (a :: l) = (a :: l).take n :: chunksOf n (l.drop (n - 1)) := by
  show chunksOfAux n (l.length + 1) (a :: l)
      = (a :: l).take n :: chunksOfAux n (l.drop (n - 1)).length (l.drop (n - 1))
  show (a :: l).take n :: chunksOfAux n l.length (l.drop (n - 1))
      = (a :: l).take n :: chunksOfAux n (l.drop (n - 1)).length (l.drop (n - 1))
  rw [chunksOfAux_fuelinv n l.length (l.drop (n - 1)) (l.drop (n - 1)).length
    (by simp only [List.length_drop]; omega) (Nat.le_refl _)]

theorem chunksOf_flatten_aux (n : Nat) (hn : 0 < n) :
    ∀ (k : Nat) (l : List String), l.length ≤ k → (chunksOf n l).flatten = l := by
  intro k
  induction k with
  | zero =>
    intro l hl
    have hl0 : l = [] := List.eq_nil_of_length_eq_zero (Nat.le_zero.mp hl)
    subst hl0; rfl
  | succ k ih =>
    intro l hl
    cases l with
    | nil => rfl
    | cons a tl =>
      simp only [List.length_cons] at hl
      rw [chunksOf_cons]
      rw [List.flatten_cons]
      rw [ih (tl.drop (n - 1)) (by simp only [List.length_drop]; omega)]
      obtain ⟨m, rfl⟩ : ∃ m, n = m + 1 := ⟨n - 1, by omega⟩
      simp [List.take_succ_cons, List.take_append_drop]

theorem chunksOf_flatten (n : Nat) (hn : 0 < n) (l : List String) :
    (chunksOf n l).flatten = l :=
  chunksOf_flatten_aux n hn l.length l (Nat.le_refl _)

theorem chunksOf_chunk_le_aux (n : Nat) :
    ∀ (k : Nat) (l : List String), l.length ≤ k →
      ∀ c ∈ chunksOf n l, c.length ≤ n := by
  intro k
  induction k with
  | zero =>
    intro l hl c hc
    have hl0 : l = [] := List.eq_nil_of_length_eq_zero (Nat.le_zero.mp hl)
    subst hl0; exact absurd hc (List.not_mem_nil c)
  | succ k ih =>
    intro l hl c hc
    cases l with
    | nil => exact absurd hc (List.not_mem_nil c)
    | cons a tl =>
      simp only [List.length_cons] at hl
      rw [chunksOf_cons] at hc
      rcases List.mem_cons.mp hc with rfl | h2
      · simp
      · exact ih (tl.drop (n - 1)) (by simp only [List.length_drop] ; omega) c h2

theorem chunksOf_chunk_le (n : Nat) (l : List String) :
    ∀ c ∈ chunksOf n l, c.length ≤ n :=
  chunksOf_chunk_le_aux n l.length l (Nat.le_refl _)

theorem chunksOf_count500_aux :
    ∀ (k : Nat) (l : List String), l.length ≤ k →
      (chunksOf 500 l).length = (l.length + 499) / 500 := by
  intro k
  induction k with
  | zero =>
    intro l hl
    have hl0 : l = [] := List.eq_nil_of_length_eq_zero (Nat.le_zero.mp hl)
    subst hl0; rfl
  | succ k ih =>
    intro l hl
    cases l with
    | nil => rfl
    | cons a tl =>
      simp only [List.length_cons] at hl
      rw [chunksOf_cons]
      rw [List.length_cons, ih (tl.drop 499) (by simp only [List.length_drop]; omega)]
      simp only [List.length_drop, List.length_cons]
      omega

theorem chunksOf_count500 (l : List String) :
    (chunksOf 500 l).length = (l.length + 499) / 500 :=
  chunksOf_count500_aux l.length l (Nat.le_refl _)

theorem chunksOf_singleton (n : Nat) (l : List String) (hne : l ≠ [])
    (hle : l.length ≤ n) : chunksOf n l = [l] := by
  cases l with
  | nil => exact absurd rfl hne
  | cons a tl =>
    rw [chunksOf_cons]
    have h1 : (a :: tl).take n = a :: tl :=
      List.take_of_length_le hle
    have h2 : tl.drop (n - 1) = [] :=
      List.drop_eq_nil_of_le (by simp at hle ⊢; omega)
    rw [h1, h2]
    rfl

theorem retryGo_ok {ε ρ : Type} (req : Nat → Except ε ρ) (delay attempt remaining : Nat)
    (r : ρ) (h : req attempt = .ok r) :
    retryGo req delay attempt remaining = (.ok r, []) := by
  rw [retryGo, h]

theorem retryGo_err_zero {ε ρ : Type} (req : Nat → Except ε ρ) (delay attempt : Nat)
    (e : ε) (h : req attempt = .error e) :
    retryGo req delay attempt 0 = (.error e, []) := by
  rw [retryGo, h]

theorem retryGo_err_succ {ε ρ : Type} (req : Nat → Except ε ρ) (delay attempt k : Nat)
    (e : ε) (h : req attempt = .error e) :
    retryGo req delay attempt (k + 1)
      = ((retryGo req delay (attempt + 1) k).1,
         delay * 2 ^ attempt :: (retryGo req delay (attempt + 1) k).2) := by
  rw [retryGo, h]

theorem retryGo_congr {ε ρ : Type} (req req' : Nat → Except ε ρ) (delay : Nat) :
    ∀ (remaining attempt : Nat),
      (∀ i, attempt ≤ i → i ≤ attempt + remaining → req i = req' i) →
      retryGo req delay attempt remaining = retryGo req' delay attempt remaining := by
  intro remaining
  induction remaining with
  | zero =>
    intro attempt h
    have h0 := h attempt (Nat.le_refl _) (by omega)
    rcases hr : req attempt with e | v
    · have hr' : req' attempt = .error e := by rw [← h0, hr]
      rw [retryGo_err_zero req delay attempt e hr, retryGo_err_zero req' delay attempt e hr']
    · have hr' : req' attempt = .ok v := by rw [← h0, hr]
      rw [retryGo_ok req delay attempt 0 v hr, retryGo_ok req' delay attempt 0 v hr']
  | succ k ih =>
    intro attempt h
    have h0 := h attempt (Nat.le_refl _) (by omega)
    have ih' := ih (attempt + 1) (fun i hi1 hi2 => h i (by omega) (by omega))
    rcases hr : req attempt with e | v
    · have hr' : req' attempt = .error e := by rw [← h0, hr]
      rw [retryGo_err_succ req delay attempt k e hr,
          retryGo_err_succ req' delay attempt k e hr', ih']
    · have hr' : req' attempt = .ok v := by rw [← h0, hr]
      rw [retryGo_ok req delay attempt (k + 1) v hr,
          retryGo_ok req' delay attempt (k + 1) v hr']

theorem processBatch_nondup_fail (env : Env) (d s : Int) (g : String) (b : List String)
    (t : String) (hp : (popPost env).1 = some t) (hdup : isDup t = false) :
    processBatch env d s g b = (false, [.postRules g d s b], (popPost env).2) := by
  unfold processBatch
  rcases hpp : popPost env with ⟨r1, env1⟩
  rw [hpp] at hp
  simp only at hp
  subst hp
  simp [hdup]

theorem push_first_nondup_false (env : Env) (d s : Int) (g : String) (hs : List String)
    (t : String) (hne : hs ≠ []) (hp : (popPost env).1 = some t)
    (hdup : isDup t = false) :
    (push_rules env d s g hs).1 = false := by
  obtain ⟨x, xs, rfl⟩ := List.exists_cons_of_ne_nil hne
  unfold push_rules
  simp only []
  rw [chunksOf_cons BATCH_SIZE x xs]
  rw [pushBatches_cons]
  rw [processBatch_nondup_fail env d s g ((x :: xs).take BATCH_SIZE) t hp hdup]
  have hle := pushBatches_count_le d s g
    (chunksOf BATCH_SIZE (xs.drop (BATCH_SIZE - 1))) (popPost env).2
  simp only [List.length_cons]
  rw [beq_eq_false_iff_ne]
  simp only [Bool.false_eq_true, if_false]
  omega

theorem dictLookup_isSome (m : List (String × String)) (k : String) :
    (dictLookup m k).isSome = true ↔ ∃ p ∈ m, p.1 = k := by
  have hsame : (dictLookup m k).isSome = (m.reverse.find? (fun p => p.1 == k)).isSome := by
    unfold dictLookup
    rcases hf : m.reverse.find? (fun p => p.1 == k) with _ | p <;> rw [hf] <;> rfl
  rw [hsame, List.find?_isSome]
  constructor
  · rintro ⟨p, hp, hpk⟩
    exact ⟨p, List.mem_reverse.mp hp, by simpa using hpk⟩
  · rintro ⟨p, hp, hpk⟩
    exact ⟨p, List.mem_reverse.mpr hp, by simpa using hpk⟩

theorem buildDict_mem (gs : List GroupEntry) (k : String) :
    (∃ p ∈ buildDict gs, p.1 = k) ↔
      ∃ g ∈ gs, ∃ nm pk, g.group = some nm ∧ g.PK = some pk ∧
        nm.isEmpty = false ∧ pk.isEmpty = false ∧ pyStrip nm = k := by
  constructor
  · rintro ⟨p, hp, hpk⟩
    obtain ⟨a, ha, hfa⟩ := List.mem_filterMap.mp hp
    rcases a with ⟨ag, apk⟩
    cases ag with
    | none => cases apk <;> simp at hfa
    | some nm =>
      cases apk with
      | none => simp at hfa
      | some pk =>
        simp only at hfa
        by_cases h12 : nm.isEmpty || pk.isEmpty
        · rw [if_pos h12] at hfa; cases hfa
        · rw [if_neg h12] at hfa
          simp only [Bool.or_eq_true, not_or, Bool.not_eq_true] at h12
          refine ⟨⟨some nm, some pk⟩, ha, nm, pk, rfl, rfl, h12.1, h12.2, ?_⟩
          have h2 : (pyStrip nm, pk) = p := by injection hfa
          subst h2
          exact hpk
  · rintro ⟨g, hg, nm, pk, hnm, hpk, h1, h2, htrim⟩
    refine ⟨(pyStrip nm, pk), List.mem_filterMap.mpr ⟨g, hg, ?_⟩, htrim⟩
    rw [hnm, hpk]
    simp only []
    rw [if_neg (by simp [h1, h2])]

theorem findCreated_some (es : List GroupEntry) (n : String) (pk : String)
    (h : findCreated es n = .ok (some pk)) :
    ∃ g ∈ es, ∃ nm, g.group = some nm ∧ pyStrip nm = pyStrip n ∧ g.PK = some pk := by
  induction es with
  | nil => simp [findCreated] at h
  | cons e rest ih =>
    rw [findCreated] at h
    rcases e with ⟨eg, epk⟩
    cases eg with
    | none => cases h
    | some gname =>
      simp only at h
      by_cases ht : pyStrip gname = pyStrip n
      · rw [if_pos ht] at h
        cases epk with
        | none => cases h
        | some pk' =>
          simp only [Except.ok.injEq, Option.some.injEq] at h
          exact ⟨⟨some gname, some pk'⟩, List.mem_cons_self _ _,
            gname, rfl, ht, by rw [h]⟩
      · rw [if_neg ht] at h
        obtain ⟨g, hg, nm, h1, h2, h3⟩ := ih h
        exact ⟨g, List.mem_cons_of_mem _ hg, nm, h1, h2, h3⟩

theorem create_folder_ops (resp : CreateResp) (name : String) :
    ∀ op ∈ (create_folder resp name).2, op = .createFolder name ∨ op = .listFolders := by
  rcases resp with ⟨pok, relist⟩
  cases pok with
  | false => intro op h; simp [create_folder] at h; simp [h]
  | true =>
    cases relist with
    | none => intro op h; simp [create_folder] at h; rcases h with rfl | rfl <;> simp
    | some entries =>
      intro op h
      unfold create_folder at h
      simp only [if_true] at h
      rcases hf : findCreated entries name with e | r <;> rw [hf] at h <;>
        simp at h <;> rcases h with rfl | rfl <;> simp

theorem push_rules_no_delF (env : Env) (d s : Int) (g : String) (hs : List String) :
    ∀ op ∈ (push_rules env d s g hs).2.1, op.isDeleteFolderOp = false := by
  cases hs with
  | nil => intro op h; simp [push_rules] at h
  | cons x xs =>
    intro op h
    unfold push_rules at h
    simp only [] at h
    exact pushBatches_no_delF d s g (chunksOf BATCH_SIZE (x :: xs)) env op h

theorem Op.isDelF_not_create (op : Op) (h : op.isDeleteFolderOp = true) :
    op.isCreateFolderOp = false := by
  cases op <;> first | rfl | cases h

theorem processDef_no_delF (env : Env) (doc : FolderDoc) :
    ∀ r, processDef env doc = some r → ∀ op ∈ r.2.1, op.isDeleteFolderOp = false := by
  rcases doc with ⟨dg, dr⟩
  cases dg with
  | none => intro r hr; simp [processDef] at hr
  | some grp =>
    rcases grp with ⟨gg, ga⟩
    cases gg with
    | none => intro r hr; simp [processDef] at hr
    | some rawName =>
      cases ga with
      | none => intro r hr; simp [processDef] at hr
      | some act =>
        rcases act with ⟨ad, ast⟩
        cases ad with
        | none => intro r hr; simp [processDef] at hr
        | some d =>
          cases ast with
          | none => intro r hr; simp [processDef] at hr
          | some s =>
            intro r hr op hop
            unfold processDef at hr
            simp only [Option.some.injEq] at hr
            rcases hcf : (create_folder (popCreate env).1 (pyStrip rawName)).1 with _ | fid
            · rw [hcf] at hr
              simp only at hr
              injection hr with hr
              subst hr
              simp only at hop
              rcases create_folder_ops (popCreate env).1 (pyStrip rawName) op hop with rfl | rfl <;> rfl
            · rw [hcf] at hr
              simp only at hr
              by_cases hfe : fid.isEmpty
              · rw [if_pos hfe] at hr
                injection hr with hr
                subst hr
                simp only at hop
                rcases create_folder_ops (popCreate env).1 (pyStrip rawName) op hop with rfl | rfl <;> rfl
              · rw [if_neg hfe] at hr
                injection hr with hr
                subst hr
                simp only at hop
                rcases List.mem_append.mp hop with h1 | h2
                · rcases create_folder_ops (popCreate env).1 (pyStrip rawName) op h1 with rfl | rfl <;> rfl
                · exact push_rules_no_delF _ _ _ _ _ op h2

theorem createPhase_no_delF :
    ∀ (docs : List FolderDoc) (env : Env),
      ∀ op ∈ (createPhase env docs).2.1, op.isDeleteFolderOp = false := by
  intro docs
  induction docs with
  | nil => intro env op h; simp [createPhase] at h
  | cons doc rest ih =>
    intro env op hop
    rw [createPhase] at hop
    rcases hpd : processDef env doc with _ | r
    · rw [hpd] at hop; simp at hop
    · rw [hpd] at hop
      rcases r with ⟨ok, t, env1⟩
      simp only at hop
      rcases hcp : (createPhase env1 rest).1 with _ | n <;> rw [hcp] at hop <;>
        simp only at hop <;> rcases List.mem_append.mp hop with h1 | h2
      · exact processDef_no_delF env doc (ok, t, env1) hpd op h1
      · exact ih env1 op h2
      · exact processDef_no_delF env doc (ok, t, env1) hpd op h1
      · exact ih env1 op h2

theorem deletePhase_all_delF (existing : List (String × String)) :
    ∀ (docs : List FolderDoc) (env : Env),
      ∀ op ∈ (deletePhase env existing docs).2.1, op.isDeleteFolderOp = true := by
  intro docs
  induction docs with
  | nil => intro env op h; simp [deletePhase] at h
  | cons doc rest ih =>
    intro env op hop
    rw [deletePhase] at hop
    rcases doc with ⟨dg, dr⟩
    cases dg with
    | none => simp at hop
    | some grp =>
      rcases grp with ⟨gg, ga⟩
      cases gg with
      | none => simp at hop
      | some rawName =>
        simp only at hop
        rcases hd : dictLookup existing (pyStrip rawName) with _ | fid
        · rw [hd] at hop
          exact ih env op hop
        · rw [hd] at hop
          simp only at hop
          rcases List.mem_cons.mp hop with rfl | h2
          · rfl
          · exact ih _ op h2

theorem fetchTrace_neither (n : Nat) :
    ∀ op ∈ (List.range n).map Op.fetchDef,
      op.isDeleteFolderOp = false ∧ op.isCreateFolderOp = false := by
  intro op h
  obtain ⟨i, _, rfl⟩ := List.mem_map.mp h
  exact ⟨rfl, rfl⟩

theorem append_indices_lt (A B : List Op) (i j : Nat) (x y : Op)
    (hA : ∀ z ∈ A, z.isCreateFolderOp = false)
    (hB : ∀ z ∈ B, z.isDeleteFolderOp = false)
    (hi : (A ++ B).get? i = some x) (hx : x.isDeleteFolderOp = true)
    (hj : (A ++ B).get? j = some y) (hy : y.isCreateFolderOp = true) : i < j := by
  have hiA : i < A.length := by
    by_contra hge
    push_neg at hge
    rw [List.get?_append_right hge] at hi
    have hxB : x ∈ B := List.get?_mem hi
    rw [hB x hxB] at hx
    cases hx
  have hjA : A.length ≤ j := by
    by_contra hlt
    push_neg at hlt
    rw [List.get?_append hlt] at hj
    have hyA : y ∈ A := List.get?_mem hj
    rw [hA y hyA] at hy
    cases hy
  omega

/- ----------------------------------------------------------------- -/
/- Claim theorems. -/

/-- Claim C6: every filtering-service call is attempted at most 3 times
with waits of 1 then 2 time units between consecutive attempts; two
transient failures followed by a success yield success with exactly two
logged retry waits; three failures re-raise the last error; definition
fetches (`_gh_get`) are not retried at all — a failing first attempt
fails the fetch even if a retry would have succeeded. -/
theorem C6_retry_discipline :
    (∀ (ε ρ : Type) (req : Nat → Except ε ρ) (e0 e1 : ε) (r : ρ),
        req 0 = .error e0 → req 1 = .error e1 → req 2 = .ok r →
        retryRequest req = (.ok r, [1, 2]))
    ∧ (∀ (ε ρ : Type) (req : Nat → Except ε ρ) (e0 e1 e2 : ε),
        req 0 = .error e0 → req 1 = .error e1 → req 2 = .error e2 →
        retryRequest req = (.error e2, [1, 2]))
    ∧ (∀ (ε ρ : Type) (req req' : Nat → Except ε ρ),
        (∀ i, i < 3 → req i = req' i) → retryRequest req = retryRequest req')
    ∧ (∀ (ε ρ : Type) (cache : List (String × ρ)) (url : String)
         (req : Nat → Except ε ρ) (e : ε),
        cache.find? (fun p => p.1 == url) = none → req 0 = .error e →
        ghGet cache url req = (.error e, cache)) := by
  refine ⟨?_, ?_, ?_, ?_⟩
  · intro ε ρ req e0 e1 r h0 h1 h2
    show retryGo req 1 0 (1 + 1) = ((.ok r : Except ε ρ), [1, 2])
    rw [retryGo_err_succ req 1 0 1 e0 h0]
    rw [show (0 + 1 : Nat) = 1 from rfl]
    rw [show retryGo req 1 1 1 = retryGo req 1 1 (0 + 1) from rfl]
    rw [retryGo_err_succ req 1 1 0 e1 h1]
    rw [show (1 + 1 : Nat) = 2 from rfl]
    rw [retryGo_ok req 1 2 0 r h2]
    norm_num
  · intro ε ρ req e0 e1 e2 h0 h1 h2
    show retryGo req 1 0 (1 + 1) = ((.error e2 : Except ε ρ), [1, 2])
    rw [retryGo_err_succ req 1 0 1 e0 h0]
    rw [show (0 + 1 : Nat) = 1 from rfl]
    rw [show retryGo req 1 1 1 = retryGo req 1 1 (0 + 1) from rfl]
    rw [retryGo_err_succ req 1 1 0 e1 h1]
    rw [show (1 + 1 : Nat) = 2 from rfl]
    rw [retryGo_err_zero req 1 2 e2 h2]
    norm_num
  · intro ε ρ req req' h
    show retryGo req 1 0 2 = retryGo req' 1 0 2
    exact retryGo_congr req req' 1 2 0 (fun i h1 h2 => h i (by omega))
  · intro ε ρ cache url req e hfind h0
    unfold ghGet
    rw [hfind, h0]

/-- Witness for C6 at a concrete request oracle that fails twice and then
succeeds. -/
theorem C6_retry_discipline_witness :
    retryRequest (fun i => if i < 2 then (Except.error "boom" : Except String Nat)
      else .ok 7) = (.ok 7, [1, 2]) :=
  C6_retry_discipline.1 String Nat _ "boom" "boom" 7 (by rfl) (by rfl) (by rfl)

/-- Claim C10: a folder whose definition yields no hostnames (every rules
entry lacking a truthy `PK`) is pushed successfully with no `POST /rules`
request; in `sync_profile`, such a folder counts as fully processed as
soon as its creation resolves a non-empty id. -/
theorem C10_empty_hostnames_success :
    (∀ (env : Env) (d s : Int) (g : String), push_rules env d s g [] = (true, [], env))
    ∧ (∀ (env : Env) (rawName : String) (d s : Int) (rules : List RuleEntry)
         (cres : CreateResp) (crs : List CreateResp) (fid : String),
        env.creates = cres :: crs →
        extractHostnames rules = [] →
        (create_folder cres (pyStrip rawName)).1 = some fid →
        fid.isEmpty = false →
        processDef env ⟨some ⟨some rawName, some ⟨some d, some s⟩⟩, rules⟩
          = some (true, (create_folder cres (pyStrip rawName)).2,
              { env with creates := crs })) := by
  constructor
  · intro env d s g; rfl
  · intro env rawName d s rules cres crs fid hc hrules hcf hfid
    have hpc : popCreate env = (cres, { env with creates := crs }) := by
      unfold popCreate; rw [hc]
    unfold processDef
    simp only []
    rw [hpc]
    simp only []
    have hcf2 : create_folder cres (pyStrip rawName)
        = (some fid, (create_folder cres (pyStrip rawName)).2) := by
      rw [← hcf]
    rw [hcf2]
    simp only []
    rw [hrules, hfid]
    simp [push_rules]

/-- Witness for C10 at a concrete environment and folder definition
with all rules entries lacking a `PK`. -/
theorem C10_empty_hostnames_success_witness :
    processDef ⟨none, [], [⟨true, some [⟨some "n", some "pk"⟩]⟩], [], []⟩
        ⟨some ⟨some "n", some ⟨some 1, some 1⟩⟩, [⟨none⟩]⟩
      = some (true,
          (create_folder ⟨true, some [⟨some "n", some "pk"⟩]⟩ (pyStrip "n")).2,
          ⟨none, [], [], [], []⟩) :=
  C10_empty_hostnames_success.2 ⟨none, [], [⟨true, some [⟨some "n", some "pk"⟩]⟩], [], []⟩
    "n" 1 1 [⟨none⟩] ⟨true, some [⟨some "n", some "pk"⟩]⟩ [] "pk"
    (by decide) (by decide) (by decide) (by decide)

/-- Claim C9: for a block folder (`do = 1`), a duplicate conflict whose
remote rule deletion then fails leaves the batch unretried yet counted
successful: push returns overall success although the batch was never
uploaded. -/
theorem C9_failed_delete_still_success :
    ∀ (lr : Option (List GroupEntry)) (dfr : List Bool) (crs : List CreateResp)
      (ps : List (Option String)) (ds : List Bool) (s : Int) (g : String)
      (b : List String) (t h : String),
      isDup t = true → extractDupHostname t = some h → b ≠ [] →
      b.length ≤ BATCH_SIZE →
      push_rules ⟨lr, dfr, crs, some t :: ps, false :: ds⟩ 1 s g b
        = (true, [.postRules g 1 s b, .deleteRule h], ⟨lr, dfr, crs, ps, ds⟩) := by
  intro lr dfr crs ps ds s g b t h hdup hex hne hlen
  have hchunks : chunksOf BATCH_SIZE b = [b] := chunksOf_singleton BATCH_SIZE b hne hlen
  have hpb : processBatch ⟨lr, dfr, crs, some t :: ps, false :: ds⟩ 1 s g b
      = (true, [.postRules g 1 s b, .deleteRule h], ⟨lr, dfr, crs, ps, ds⟩) := by
    simp [processBatch, popPost, hdup, handle_duplicate_error, hex, popDel]
  obtain ⟨x, xs, rfl⟩ := List.exists_cons_of_ne_nil hne
  unfold push_rules
  simp only []
  rw [hchunks, pushBatches_cons, pushBatches_nil, hpb]
  simp

/-- Witness for C9: a singleton batch, a parseable duplicate-error body,
and a failing rule deletion. -/
theorem C9_failed_delete_still_success_witness :
    push_rules ⟨none, [], [], [some "Custom Rule already exists: x.com"], [false]⟩
        1 1 "g" ["a.com"]
      = (true, [.postRules "g" 1 1 ["a.com"], .deleteRule "x.com"],
         ⟨none, [], [], [], []⟩) :=
  C9_failed_delete_still_success none [] [] [] [] 1 "g" ["a.com"]
    "Custom Rule already exists: x.com" "x.com"
    (by decide) (by decide) (by decide) (by decide)

/-- Claim C5: for a non-empty hostname list of length `N`, push issues
exactly `⌈N/500⌉` batches of at most 500 hostnames each, strictly in
order; when every batch succeeds at once, the issued batches concatenate
back to the input list; and rules entries lacking a `PK` are dropped by
the hostname extraction. -/
theorem C5_batching (hs : List String) (hne : hs ≠ []) :
    (chunksOf BATCH_SIZE hs).length = (hs.length + 499) / 500
    ∧ (∀ c ∈ chunksOf BATCH_SIZE hs, c.length ≤ BATCH_SIZE)
    ∧ (chunksOf BATCH_SIZE hs).flatten = hs
    ∧ (∀ (d s : Int) (g : String) (lr : Option (List GroupEntry))
         (dfr : List Bool) (crs : List CreateResp),
        push_rules ⟨lr, dfr, crs, [], []⟩ d s g hs
          = (true, (chunksOf BATCH_SIZE hs).map (fun c => Op.postRules g d s c),
             ⟨lr, dfr, crs, [], []⟩))
    ∧ (∀ (rs1 rs2 : List RuleEntry),
        extractHostnames (rs1 ++ ⟨none⟩ :: rs2) = extractHostnames (rs1 ++ rs2)) := by
  refine ⟨chunksOf_count500 hs, chunksOf_chunk_le _ hs,
    chunksOf_flatten _ (by norm_num [BATCH_SIZE]) hs, ?_, ?_⟩
  · intro d s g lr dfr crs
    obtain ⟨x, xs, rfl⟩ := List.exists_cons_of_ne_nil hne
    unfold push_rules
    simp only []
    rw [pushBatches_allok]
    simp
  · intro rs1 rs2
    induction rs1 with
    | nil => rfl
    | cons r rs ih =>
      rcases r with ⟨pk⟩
      cases pk with
      | none => simpa [extractHostnames] using ih
      | some v =>
        by_cases hv : v.isEmpty <;> simp [extractHostnames, hv, ih]

/-- Witness for C5 at the singleton hostname list. -/
theorem C5_batching_witness :
    (chunksOf BATCH_SIZE ["a.com"]).flatten = ["a.com"]
    ∧ (chunksOf BATCH_SIZE ["a.com"]).length = 1 :=
  ⟨(C5_batching ["a.com"] (by decide)).2.2.1,
   by rw [(C5_batching ["a.com"] (by decide)).1]; norm_num⟩

set_option maxRecDepth 10000 in
/-- Claim C1 (counterexample): batch 1 of a 501-hostname push fails with a
non-duplicate HTTP error (`"boom"`), push returns failure — yet a
rule-creation request for batch 2 is still issued, contradicting the
claim that the remaining batches are abandoned. -/
theorem C1_counterexample :
    (push_rules ⟨none, [], [], [some "boom"], []⟩ 1 1 "g"
        (List.replicate 501 "h")).1 = false
    ∧ (push_rules ⟨none, [], [], [some "boom"], []⟩ 1 1 "g"
        (List.replicate 501 "h")).2.1.get? 1
      = some (.postRules "g" 1 1 ["h"]) :=
  ⟨by decide, by decide⟩

/-- Claim C1 (amended): when a batch's rule-creation request fails with a
non-duplicate HTTP error, that batch is not retried and push returns
failure for the folder, but the remaining batches are still attempted —
every batch of the folder gets at least one rule-creation request. -/
theorem C1_nondup_error_behavior :
    (∀ (env : Env) (d s : Int) (g : String) (b : List String) (t : String),
        (popPost env).1 = some t → isDup t = false →
        processBatch env d s g b = (false, [.postRules g d s b], (popPost env).2))
    ∧ (∀ (d s : Int) (g : String) (bs : List (List String)) (env : Env)
         (b : List String), b ∈ bs →
        Op.postRules g d s b ∈ (pushBatches d s g env bs).2.1)
    ∧ (∀ (env : Env) (d s : Int) (g : String) (hs : List String) (t : String),
        hs ≠ [] → (popPost env).1 = some t → isDup t = false →
        (push_rules env d s g hs).1 = false) :=
  ⟨fun env d s g b t hp hdup => processBatch_nondup_fail env d s g b t hp hdup,
   fun d s g bs env b hb => pushBatches_mem_post d s g bs env b hb,
   fun env d s g hs t hne hp hdup => push_first_nondup_false env d s g hs t hne hp hdup⟩

/-- Witness for C1 at a concrete environment whose first response is a
non-duplicate error. -/
theorem C1_nondup_error_behavior_witness :
    (push_rules ⟨none, [], [], [some "boom"], []⟩ 1 1 "g" ["a.com"]).1 = false :=
  C1_nondup_error_behavior.2.2 ⟨none, [], [], [some "boom"], []⟩ 1 1 "g" ["a.com"]
    "boom" (by decide) (by decide) (by decide)

/-- Claim C2 (counterexample): an existing folder named `Spam` is not
matched by the target name `spam`: the stale-folder lookup misses it and
the post-creation scan does not find it, so names differing only in
letter case do **not** identify the same folder. -/
theorem C2_counterexample :
    dictLookup (list_existing_folders (some [⟨some "Spam", some "pk1"⟩])) "spam" = none
    ∧ findCreated [⟨some "Spam", some "pk1"⟩] "spam" = .ok none :=
  ⟨by decide, by rfl⟩

/-- Claim C2 (amended): both folder-name matchers trim surrounding
whitespace but compare case-sensitively: the stale-folder mapping
contains a match for `k` exactly when some listed entry has a truthy name
whose stripped form equals `k` exactly, and the post-creation scan
resolves an id only for an entry whose stripped name equals the stripped
target exactly. -/
theorem C2_name_matching_strip_exact :
    (∀ (gs : List GroupEntry) (k : String),
        (dictLookup (list_existing_folders (some gs)) k).isSome = true ↔
          ∃ g ∈ gs, ∃ nm pk, g.group = some nm ∧ g.PK = some pk ∧
            nm.isEmpty = false ∧ pk.isEmpty = false ∧ pyStrip nm = k)
    ∧ (∀ (es : List GroupEntry) (n pk : String),
        findCreated es n = .ok (some pk) →
        ∃ g ∈ es, ∃ nm, g.group = some nm ∧ pyStrip nm = pyStrip n ∧
          g.PK = some pk) := by
  constructor
  · intro gs k
    rw [show list_existing_folders (some gs) = buildDict gs from rfl]
    rw [dictLookup_isSome]
    exact buildDict_mem gs k
  · exact findCreated_some

/-- Witness for C2 at a whitespace-padded exact-case name. -/
theorem C2_name_matching_strip_exact_witness :
    (dictLookup (list_existing_folders (some [⟨some " x ", some "p"⟩])) "x").isSome
      = true :=
  (C2_name_matching_strip_exact.1 [⟨some " x ", some "p"⟩] "x").mpr
    ⟨⟨some " x ", some "p"⟩, by decide, " x ", "p", rfl, rfl,
     by decide, by decide, by decide⟩

/-- Claim C3 (code bug): a definition document missing `group.group` is
not rejected at fetch time; the `KeyError` it later raises aborts the
whole profile pass.  With the good document alone the pass succeeds and
creates the folder; adding the bad document makes the pass return
failure, and the good folder is never created. -/
theorem C3_missing_field_aborts_pass :
    sync_profile [.ok goodDoc] env9
      = (true, [.fetchDef 0, .listFolders, .createFolder "good", .listFolders,
                .postRules "pk" 1 1 ["a.com"]])
    ∧ sync_profile [.ok goodDoc, .ok badDoc] env9
      = (false, [.fetchDef 0, .fetchDef 1, .listFolders]) :=
  ⟨by decide, by decide⟩

/-- Claim C4: on a duplicate-rule conflict, a block folder (`do = 1`)
with an extractable conflicting hostname and a successful remote rule
deletion retries the whole batch exactly once (two rule-creation
requests, the delete in between); a non-block folder skips the batch and
counts it satisfied; a batch is never attempted more than twice; and a
second duplicate failure is counted as satisfied. -/
theorem C4_duplicate_recovery :
    (∀ (lr : Option (List GroupEntry)) (dfr : List Bool) (crs : List CreateResp)
       (ps : List (Option String)) (ds : List Bool) (s : Int) (g : String)
       (b : List String) (t h : String),
        isDup t = true → extractDupHostname t = some h → b ≠ [] →
        (processBatch ⟨lr, dfr, crs, some t :: ps, true :: ds⟩ 1 s g b).2.1
          = [.postRules g 1 s b, .deleteRule h, .postRules g 1 s b])
    ∧ (∀ (lr : Option (List GroupEntry)) (dfr : List Bool) (crs : List CreateResp)
         (ps : List (Option String)) (ds : List Bool) (d s : Int) (g : String)
         (b : List String) (t : String),
        d ≠ 1 → isDup t = true →
        processBatch ⟨lr, dfr, crs, some t :: ps, ds⟩ d s g b
          = (true, [.postRules g d s b], ⟨lr, dfr, crs, ps, ds⟩))
    ∧ (∀ (env : Env) (d s : Int) (g : String) (b : List String),
        countPosts (processBatch env d s g b).2.1 ≤ 2)
    ∧ (∀ (lr : Option (List GroupEntry)) (dfr : List Bool) (crs : List CreateResp)
         (ps : List (Option String)) (ds : List Bool) (s : Int) (g : String)
         (b : List String) (t t2 h : String),
        isDup t = true → extractDupHostname t = some h → b ≠ [] →
        isDup t2 = true →
        (processBatch ⟨lr, dfr, crs, some t :: some t2 :: ps, true :: ds⟩ 1 s g b).1
          = true) := by
  refine ⟨?_, ?_, ?_, ?_⟩
  · intro lr dfr crs ps ds s g b t h hdup hex hne
    obtain ⟨x, xs, rfl⟩ := List.exists_cons_of_ne_nil hne
    cases ps with
    | nil =>
      simp [processBatch, popPost, handle_duplicate_error, popDel, hdup, hex]
    | cons p ps' =>
      cases p <;>
        simp [processBatch, popPost, handle_duplicate_error, popDel, hdup, hex]
  · intro lr dfr crs ps ds d s g b t hd1 hdup
    rcases he : extractDupHostname t with _ | h <;>
      simp [processBatch, popPost, handle_duplicate_error, hdup, he, hd1]
  · exact processBatch_le_two_posts
  · intro lr dfr crs ps ds s g b t t2 h hdup hex hne ht2
    obtain ⟨x, xs, rfl⟩ := List.exists_cons_of_ne_nil hne
    simp [processBatch, popPost, handle_duplicate_error, popDel, hdup, hex, ht2]

/-- Witness for C4 at a parseable duplicate-error body with a successful
rule deletion. -/
theorem C4_duplicate_recovery_witness :
    (processBatch ⟨none, [], [], [some "Custom Rule already exists: x.com"], [true]⟩
        1 1 "g" ["a.com"]).2.1
      = [.postRules "g" 1 1 ["a.com"], .deleteRule "x.com",
         .postRules "g" 1 1 ["a.com"]] :=
  C4_duplicate_recovery.1 none [] [] [] [] 1 "g" ["a.com"]
    "Custom Rule already exists: x.com" "x.com" (by decide) (by decide) (by decide)

/-- Claim C7 (counterexample): with the token and one profile configured
but every definition fetch failing, no definition is fetched — so "every
fetched definition was created and fully pushed" holds vacuously — yet
the process exits with status 1, contradicting the claimed equivalence. -/
theorem C7_counterexample :
    (mainRun (some "t") (some "p")
        (fun _ => List.replicate 9 (Except.error ()))
        (fun _ => ⟨none, [], [], [], []⟩)).1 = 1
    ∧ fetchedDocs (List.replicate 9 (Except.error ())) = [] :=
  ⟨by decide, by decide⟩

/-- Claim C7 (amended): the process exits 0 iff the token is present, the
profile list is non-empty, and every configured profile's sync pass
returned success — where a pass whose fetched-definition list is empty
always fails; with the token or profile list missing it exits 1 having
issued no request. -/
theorem C7_exit_status :
    (∀ (token profileVar : Option String)
       (fetchesOf : String → List (Except Unit FolderDoc)) (envOf : String → Env),
        ((mainRun token profileVar fetchesOf envOf).1 = 0 ↔
          (tokenPresent token = true ∧ getProfileIds profileVar ≠ [] ∧
           ∀ p ∈ getProfileIds profileVar,
             (sync_profile (fetchesOf p) (envOf p)).1 = true)))
    ∧ (∀ (token profileVar : Option String)
         (fetchesOf : String → List (Except Unit FolderDoc)) (envOf : String → Env),
        tokenPresent token = false ∨ getProfileIds profileVar = [] →
        mainRun token profileVar fetchesOf envOf = (1, []))
    ∧ (∀ (fetches : List (Except Unit FolderDoc)) (env : Env),
        fetchedDocs fetches = [] → (sync_profile fetches env).1 = false) := by
  refine ⟨?_, ?_, ?_⟩
  · intro token profileVar fetchesOf envOf
    unfold mainRun
    by_cases ht : tokenPresent token = true
    · by_cases hp : (getProfileIds profileVar).isEmpty = true
      · rw [if_pos (by simp [ht, hp])]
        simp only []
        constructor
        · intro h; simp at h
        · rintro ⟨-, hne, -⟩
          exact absurd (List.isEmpty_iff.mp hp) hne
      · rw [if_neg (by simp [ht, hp])]
        simp only []
        have hiff : (((getProfileIds profileVar).map
              (fun p => sync_profile (fetchesOf p) (envOf p))).all
                (fun r => r.1) = true)
            ↔ ∀ p ∈ getProfileIds profileVar,
                (sync_profile (fetchesOf p) (envOf p)).1 = true := by
          simp [List.all_eq_true]
        by_cases hall : (((getProfileIds profileVar).map
            (fun p => sync_profile (fetchesOf p) (envOf p))).all (fun r => r.1)) = true
        · rw [if_pos hall]
          exact iff_of_true rfl ⟨ht, fun hc => by simp [hc] at hp, hiff.mp hall⟩
        · rw [if_neg hall]
          refine iff_of_false (by simp) (fun h => hall (hiff.mpr h.2.2))
    · rw [if_pos (by simp [Bool.not_eq_true] at ht; simp [ht])]
      simp only []
      constructor
      · intro h; simp at h
      · rintro ⟨ht', -, -⟩; exact absurd ht' ht
  · intro token profileVar fetchesOf envOf h
    rcases h with h | h
    · unfold mainRun
      rw [if_pos (by simp [h])]
    · unfold mainRun
      rw [if_pos (by simp [h])]
  · intro fetches env h
    unfold sync_profile
    rw [h]
    rfl

/-- Witness for C7 with missing configuration. -/
theorem C7_exit_status_witness :
    mainRun none none (fun _ => []) (fun _ => ⟨none, [], [], [], []⟩) = (1, []) :=
  C7_exit_status.2.1 none none (fun _ => []) (fun _ => ⟨none, [], [], [], []⟩)
    (Or.inl (by decide))

/-- Claim C8: in a sync pass trace, every stale-folder deletion request
occurs strictly before every folder-creation request. -/
theorem C8_delete_before_create :
    ∀ (fetches : List (Except Unit FolderDoc)) (env : Env) (i j : Nat) (x y : Op),
      (sync_profile fetches env).2.get? i = some x → x.isDeleteFolderOp = true →
      (sync_profile fetches env).2.get? j = some y → y.isCreateFolderOp = true →
      i < j := by
  intro fetches env i j x y hi hx hj hy
  unfold sync_profile at hi hj
  simp only [] at hi hj
  by_cases hemp : (fetchedDocs fetches).isEmpty = true
  · rw [if_pos hemp] at hi
    have hxm : x ∈ (List.range fetches.length).map Op.fetchDef := List.get?_mem hi
    rw [(fetchTrace_neither fetches.length x hxm).1] at hx
    cases hx
  · rw [if_neg hemp] at hi hj
    rcases hdp : deletePhase env (list_existing_folders env.listResp)
        (fetchedDocs fetches) with ⟨ok1, t1, env1⟩
    rw [hdp] at hi hj
    simp only [] at hi hj
    cases ok1 with
    | false =>
      simp only [Bool.false_eq_true, if_false] at hj
      have hym : y ∈ (List.range fetches.length).map Op.fetchDef
          ++ Op.listFolders :: t1 := List.get?_mem hj
      rcases List.mem_append.mp hym with h1 | h2
      · rw [(fetchTrace_neither fetches.length y h1).2] at hy; cases hy
      · rcases List.mem_cons.mp h2 with rfl | h3
        · cases hy
        · have hd := deletePhase_all_delF (list_existing_folders env.listResp)
            (fetchedDocs fetches) env y (by rw [hdp]; exact h3)
          rw [Op.isDelF_not_create y hd] at hy
          cases hy
    | true =>
      simp only [if_true] at hi hj
      rcases hcp : createPhase env1 (fetchedDocs fetches) with ⟨cp1, t2, env2⟩
      rw [hcp] at hi hj
      have hA : ∀ z ∈ (List.range fetches.length).map Op.fetchDef
          ++ Op.listFolders :: t1, z.isCreateFolderOp = false := by
        intro z hz
        rcases List.mem_append.mp hz with h1 | h2
        · exact (fetchTrace_neither fetches.length z h1).2
        · rcases List.mem_cons.mp h2 with rfl | h3
          · rfl
          · exact Op.isDelF_not_create z
              (deletePhase_all_delF (list_existing_folders env.listResp)
                (fetchedDocs fetches) env z (by rw [hdp]; exact h3))
      have hB : ∀ z ∈ t2, z.isDeleteFolderOp = false := by
        intro z hz
        exact createPhase_no_delF (fetchedDocs fetches) env1 z (by rw [hcp]; exact hz)
      have hassoc : (List.range fetches.length).map Op.fetchDef
          ++ Op.listFolders :: (t1 ++ t2)
          = ((List.range fetches.length).map Op.fetchDef
              ++ Op.listFolders :: t1) ++ t2 := by
        simp
      cases cp1 with
      | none =>
        simp only [] at hi hj
        rw [hassoc] at hi hj
        exact append_indices_lt _ _ i j x y hA hB hi hx hj hy
      | some n =>
        simp only [] at hi hj
        rw [hassoc] at hi hj
        exact append_indices_lt _ _ i j x y hA hB hi hx hj hy

/-- Witness for C8: a pass that deletes a stale folder at trace position 2
and creates its replacement at position 3. -/
theorem C8_delete_before_create_witness :
    (sync_profile [.ok ⟨some ⟨some "n", some ⟨some 1, some 1⟩⟩, []⟩]
        ⟨some [⟨some "n", some "pk"⟩], [true],
         [⟨true, some [⟨some "n", some "pk2"⟩]⟩], [], []⟩).2.get? 2
      = some (.deleteFolder "n" "pk")
    ∧ (2 : Nat) < 3 :=
  ⟨by decide,
   C8_delete_before_create [.ok ⟨some ⟨some "n", some ⟨some 1, some 1⟩⟩, []⟩]
     ⟨some [⟨some "n", some "pk"⟩], [true],
      [⟨true, some [⟨some "n", some "pk2"⟩]⟩], [], []⟩
     2 3 (.deleteFolder "n" "pk") (.createFolder "n")
     (by decide) rfl (by decide) rfl⟩

end CtrldSync
